import Mathlib

/-!
Verification of the workflow execution-order service (`src/execution_order.py`).

The service stores workflows, steps and dependencies in a relational store and
offers endpoints to create them and to compute a topological execution order
(`nx.topological_sort`, i.e. Kahn's algorithm) of one workflow's steps.

The embedding below mirrors the source:
* the SQLAlchemy tables become lists of records kept in insertion order,
  with autoincrement integer primary keys modelled by explicit counters;
* every endpoint becomes a function `DB → args → DB × Except ApiError resp`;
  an `HTTPException` raised before `db.add`/`db.commit` leaves the database
  component equal to the input, exactly as in the source where all checks
  precede the single insert;
* HTTP status 404 becomes `ApiError.notFound`, status 400 becomes
  `ApiError.badRequest`, each carrying the source's `detail` string;
* `get_execution_order` builds a `networkx` digraph by iterating the Python
  set `step_ids`.  A Python set has no specified iteration order, so the
  embedding takes that enumeration as an explicit parameter `nodeOrder`
  (a duplicate-free enumeration of the set's elements); theorems quantify
  over it or exhibit particular enumerations.
-/

/-- Row of the `workflows` table. -/
structure WorkflowRec where
  id : Nat
  workflow_str_id : String
  name : String
deriving DecidableEq, Repr

/-- Row of the `steps` table. -/
structure StepRec where
  id : Nat
  step_str_id : String
  description : String
  workflow_id : Nat
deriving DecidableEq, Repr

/-- Row of the `dependencies` table. -/
structure DependencyRec where
  id : Nat
  workflow_id : Nat
  step_str_id : String
  prerequisite_step_str_id : String
deriving DecidableEq, Repr

/-- The relational store: one list per table, in insertion (rowid) order,
plus the autoincrement counters for the integer primary keys. -/
structure DB where
  workflows : List WorkflowRec
  steps : List StepRec
  dependencies : List DependencyRec
  nextWorkflowId : Nat
  nextStepId : Nat
  nextDependencyId : Nat
deriving DecidableEq, Repr

/-- The empty store, as created by `Base.metadata.create_all`. -/
def DB.empty : DB := ⟨[], [], [], 1, 1, 1⟩

/-- An `HTTPException`: status 404 (`notFound`) or 400 (`badRequest`),
with the `detail` string from the source. -/
inductive ApiError where
  | notFound (detail : String)
  | badRequest (detail : String)
deriving DecidableEq, Repr

/-- Response of `create_workflow`. -/
structure WorkflowResponse where
  internal_db_id : Nat
  workflow_str_id : String
  status : String
deriving DecidableEq, Repr

/-- Response of `create_step`. -/
structure StepResponse where
  internal_db_id : Nat
  step_str_id : String
  status : String
deriving DecidableEq, Repr

/-- Result of `get_execution_order`: either `{"order": [...]}` or the
HTTP-200 body `{"error": "cycle_detected"}`. -/
inductive OrderResult where
  | order (l : List String)
  | cycleDetected
deriving DecidableEq, Repr

/-- `check_workflow_exists`: first `workflows` row with the given string id,
404 if none. -/
def check_workflow_exists (db : DB) (workflow_str_id : String) :
    Except ApiError WorkflowRec :=
  match db.workflows.find? (fun w => w.workflow_str_id == workflow_str_id) with
  | some w => .ok w
  | none => .error (.notFound s!"Workflow {workflow_str_id} not found")

/-- `check_step_exists`: first `steps` row of the workflow with the given
step string id, 404 if none. -/
def check_step_exists (db : DB) (workflow_id : Nat) (step_str_id : String) :
    Except ApiError StepRec :=
  match db.steps.find?
      (fun s => s.workflow_id == workflow_id && s.step_str_id == step_str_id) with
  | some s => .ok s
  | none => .error (.notFound s!"Step {step_str_id} not found in workflow")

/-- `validate_no_self_dependency`. -/
def validate_no_self_dependency (step_str_id prerequisite_step_str_id : String) :
    Except ApiError Unit :=
  if step_str_id == prerequisite_step_str_id then
    .error (.badRequest "Self-dependency not allowed: step cannot depend on itself")
  else
    .ok ()

/-- `POST /workflows`. -/
def create_workflow (db : DB) (workflow_str_id name : String) :
    DB × Except ApiError WorkflowResponse :=
  match db.workflows.find? (fun w => w.workflow_str_id == workflow_str_id) with
  | some _ => (db, .error (.badRequest "Workflow ID already exists"))
  | none =>
    let w : WorkflowRec := ⟨db.nextWorkflowId, workflow_str_id, name⟩
    ({ db with
        workflows := db.workflows ++ [w]
        nextWorkflowId := db.nextWorkflowId + 1 },
      .ok ⟨w.id, w.workflow_str_id, "created"⟩)

/-- `POST /workflows/{workflow_str_id}/steps`. -/
def create_step (db : DB) (workflow_str_id step_str_id description : String) :
    DB × Except ApiError StepResponse :=
  match check_workflow_exists db workflow_str_id with
  | .error e => (db, .error e)
  | .ok workflow =>
    match db.steps.find?
        (fun s => s.workflow_id == workflow.id && s.step_str_id == step_str_id) with
    | some _ =>
      (db, .error (.badRequest s!"Step {step_str_id} already exists in workflow"))
    | none =>
      let st : StepRec := ⟨db.nextStepId, step_str_id, description, workflow.id⟩
      ({ db with
          steps := db.steps ++ [st]
          nextStepId := db.nextStepId + 1 },
        .ok ⟨st.id, st.step_str_id, "step_added"⟩)

/-- `POST /workflows/{workflow_str_id}/dependencies`. -/
def create_dependency (db : DB) (workflow_str_id step_str_id prerequisite_step_str_id : String) :
    DB × Except ApiError String :=
  match check_workflow_exists db workflow_str_id with
  | .error e => (db, .error e)
  | .ok workflow =>
    match validate_no_self_dependency step_str_id prerequisite_step_str_id with
    | .error e => (db, .error e)
    | .ok _ =>
      match check_step_exists db workflow.id step_str_id with
      | .error e => (db, .error e)
      | .ok _ =>
        match check_step_exists db workflow.id prerequisite_step_str_id with
        | .error e => (db, .error e)
        | .ok _ =>
          match db.dependencies.find?
              (fun d => d.workflow_id == workflow.id &&
                d.step_str_id == step_str_id &&
                d.prerequisite_step_str_id == prerequisite_step_str_id) with
          | some _ => (db, .error (.badRequest "Dependency already exists"))
          | none =>
            let dep : DependencyRec :=
              ⟨db.nextDependencyId, workflow.id, step_str_id, prerequisite_step_str_id⟩
            ({ db with
                dependencies := db.dependencies ++ [dep]
                nextDependencyId := db.nextDependencyId + 1 },
              .ok "dependency_added")

/-- Step string ids of one workflow, in `steps`-table order
(the query `db.query(StepDB).filter(StepDB.workflow_id == workflow.id)`). -/
def workflowStepIds (db : DB) (wfid : Nat) : List String :=
  (db.steps.filter (fun s => s.workflow_id == wfid)).map (fun s => s.step_str_id)

/-- Directed edges of one workflow's dependency digraph, one per
`dependencies` row, oriented prerequisite → dependent as in
`G.add_edge(dep.prerequisite_step_str_id, dep.step_str_id)`. -/
def workflowEdges (db : DB) (wfid : Nat) : List (String × String) :=
  (db.dependencies.filter (fun d => d.workflow_id == wfid)).map
    (fun d => (d.prerequisite_step_str_id, d.step_str_id))

/-- `networkx` node insertion: adding an existing node is a no-op,
a new node goes to the back of the (dict-ordered) node list. -/
def addNode (ns : List String) (x : String) : List String :=
  if x ∈ ns then ns else ns ++ [x]

/-- Node list of the built digraph: the nodes added from the step-id set
(in enumeration order `nodeOrder`), then any edge endpoints not yet
present, added by `G.add_edge` in edge order. -/
def graphNodes (nodeOrder : List String) (edges : List (String × String)) :
    List String :=
  edges.foldl (fun ns e => addNode (addNode ns e.1) e.2) nodeOrder

/-- A node is ready (in-degree zero) when no still-unprocessed node has an
edge into it.  With `remaining` the unprocessed nodes, this is exactly the
decremented in-degree of Kahn's algorithm reaching zero. -/
def nodeReady (remaining : List String) (edges : List (String × String))
    (v : String) : Bool :=
  edges.all (fun e => !(e.2 == v && remaining.contains e.1))

/-- The next node `nx.topological_sort` emits: the first ready node of the
unprocessed list (ties among simultaneously ready nodes resolved by
position in the node list, itself determined by the unspecified set
enumeration `nodeOrder`). -/
def pickReady (remaining : List String) (edges : List (String × String)) :
    Option String :=
  remaining.find? (nodeReady remaining edges)

/-- Kahn's algorithm main loop, with fuel (one unit per emitted node).
`none` models `nx.NetworkXUnfeasible`: the ready set emptied before all
nodes were emitted. -/
def kahnGo (edges : List (String × String)) :
    Nat → List String → List String → Option (List String)
  | 0, remaining, acc => if remaining.isEmpty then some acc.reverse else none
  | n + 1, remaining, acc =>
    match pickReady remaining edges with
    | none => if remaining.isEmpty then some acc.reverse else none
    | some v => kahnGo edges n (remaining.erase v) (v :: acc)

/-- `list(nx.topological_sort(G))`, returning `none` on
`nx.NetworkXUnfeasible` (cycle). -/
def topologicalSort (nodes : List String) (edges : List (String × String)) :
    Option (List String) :=
  kahnGo edges nodes.length nodes []

/-- `GET /workflows/{workflow_str_id}/execution-order`.  `nodeOrder` is the
iteration order of the Python set `step_ids` (unspecified by the source;
any duplicate-free enumeration of the set). -/
def get_execution_order (nodeOrder : List String) (db : DB)
    (workflow_str_id : String) : DB × Except ApiError OrderResult :=
  match check_workflow_exists db workflow_str_id with
  | .error e => (db, .error e)
  | .ok workflow =>
    let edges := workflowEdges db workflow.id
    let nodes := graphNodes nodeOrder edges
    match topologicalSort nodes edges with
    | some execution_order => (db, .ok (.order execution_order))
    | none => (db, .ok .cycleDetected)

deriving instance DecidableEq for Except

/-- Edge relation of a built digraph. -/
def edgeRel (edges : List (String × String)) (a b : String) : Prop :=
  (a, b) ∈ edges

instance (edges : List (String × String)) : DecidableRel (edgeRel edges) :=
  fun a b => inferInstanceAs (Decidable ((a, b) ∈ edges))

/-- The edge list contains a directed cycle: a walk of at least one edge
whose first and last nodes coincide. -/
def hasCycle (edges : List (String × String)) : Prop :=
  ∃ c : List String, 2 ≤ c.length ∧ c.head? = c.getLast? ∧
    List.Chain' (edgeRel edges) c

/-- `[pred^[d] v, …, pred v, v]`: a walk following chosen in-neighbours
backwards from `v`. -/
def descChain (pred : String → String) (v : String) : Nat → List String
  | 0 => [v]
  | d + 1 => pred^[d + 1] v :: descChain pred v d

/-- Every workflow string id appears in at most one `workflows` row
(spec invariant 1). -/
def WorkflowIdsUnique (db : DB) : Prop :=
  (db.workflows.map (fun w => w.workflow_str_id)).Nodup

/-- No two `steps` rows share (owning workflow, step string id)
(spec invariant 2). -/
def StepKeysUnique (db : DB) : Prop :=
  (db.steps.map (fun s => (s.workflow_id, s.step_str_id))).Nodup

/-- Both endpoints of every stored dependency are steps of the same
workflow (spec invariant 3). -/
def DepEndpointsExist (db : DB) : Prop :=
  ∀ d ∈ db.dependencies,
    (∃ s ∈ db.steps, s.workflow_id = d.workflow_id ∧
      s.step_str_id = d.step_str_id) ∧
    (∃ s ∈ db.steps, s.workflow_id = d.workflow_id ∧
      s.step_str_id = d.prerequisite_step_str_id)

def DBInv (db : DB) : Prop :=
  WorkflowIdsUnique db ∧ StepKeysUnique db ∧ DepEndpointsExist db

/-- A mutation sequence against the service: each constructor is one call
of the corresponding endpoint (its response discarded). -/
inductive Op where
  | createWorkflow (id name : String)
  | addStep (wid sid desc : String)
  | addDependency (wid sid pid : String)

def applyOp (db : DB) : Op → DB
  | .createWorkflow id name => (create_workflow db id name).1
  | .addStep wid sid desc => (create_step db wid sid desc).1
  | .addDependency wid sid pid => (create_dependency db wid sid pid).1

/-- The state after an operation sequence against a fresh store. -/
def runOps (ops : List Op) : DB := ops.foldl applyOp DB.empty

def wf1ops : List Op :=
  [.createWorkflow "wf1" "w", .addStep "wf1" "A" "", .addStep "wf1" "B" "",
   .addStep "wf1" "C" "", .addDependency "wf1" "B" "A", .addDependency "wf1" "C" "B"]

/-- Workflow `wf1`: steps A, B, C; A prerequisite of B, B prerequisite of C. -/
def wf1db : DB := runOps wf1ops

def wf2ops : List Op :=
  [.createWorkflow "wf2" "w", .addStep "wf2" "A" "", .addStep "wf2" "B" "",
   .addDependency "wf2" "A" "B", .addDependency "wf2" "B" "A"]

/-- Workflow `wf2`: steps A, B with a two-step dependency cycle. -/
def wf2db : DB := runOps wf2ops

def wf3ops : List Op :=
  [.createWorkflow "wf3" "w", .addStep "wf3" "A" "", .addStep "wf3" "B" "",
   .addStep "wf3" "C" ""]

/-- Workflow `wf3`: steps A, B, C and no dependencies. -/
def wf3db : DB := runOps wf3ops

def wf4ops : List Op :=
  [.createWorkflow "wf4" "w", .addStep "wf4" "A" "", .addStep "wf4" "B" "",
   .addDependency "wf4" "B" "A"]

/-- Workflow `wf4`: steps A, B and the single dependency "A before B". -/
def wf4db : DB := runOps wf4ops

def wf5ops : List Op := [.createWorkflow "wf5" "w"]

/-- Workflow `wf5`: no steps at all. -/
def wf5db : DB := runOps wf5ops

def wf6ops : List Op :=
  [.createWorkflow "wf6" "w", .addStep "wf6" "A" "", .addStep "wf6" "B" ""]

/-- Workflow `wf6`: steps A, B and no dependency yet. -/
def wf6db : DB := runOps wf6ops

/-- State after the first successful `AddDependency(wf6, "B", "A")`. -/
def wf6db' : DB := (create_dependency wf6db "wf6" "B" "A").1

/-- A pair of opposite edges is a cycle. -/
lemma hasCycle_two {edges : List (String × String)} {a b : String}
    (h1 : (a, b) ∈ edges) (h2 : (b, a) ∈ edges) : hasCycle edges :=
  ⟨[a, b, a], by simp, by simp,
    List.chain'_cons.mpr ⟨h1, List.chain'_cons.mpr ⟨h2, List.chain'_singleton _⟩⟩⟩

/-! ### Graph construction lemmas -/

lemma mem_addNode_of_mem {ns : List String} {x y : String} (h : x ∈ ns) :
    x ∈ addNode ns y := by
  unfold addNode; split
  · exact h
  · exact List.mem_append_left _ h

lemma mem_addNode_self (ns : List String) (y : String) : y ∈ addNode ns y := by
  unfold addNode; split
  · assumption
  · exact List.mem_append_right _ (List.mem_singleton.mpr rfl)

lemma addNode_nodup {ns : List String} {y : String} (h : ns.Nodup) :
    (addNode ns y).Nodup := by
  unfold addNode; split
  · exact h
  · next hy =>
    refine List.Nodup.append h (List.nodup_singleton y) ?_
    intro a ha hay
    rw [List.mem_singleton.mp hay] at ha
    exact hy ha

lemma addNode_eq_of_mem {ns : List String} {y : String} (h : y ∈ ns) :
    addNode ns y = ns := by
  unfold addNode; simp [h]

lemma graphNodes_nil (nodeOrder : List String) : graphNodes nodeOrder [] = nodeOrder :=
  rfl

lemma graphNodes_cons (nodeOrder : List String) (e : String × String)
    (es : List (String × String)) :
    graphNodes nodeOrder (e :: es) = graphNodes (addNode (addNode nodeOrder e.1) e.2) es :=
  rfl

lemma mem_graphNodes_of_mem {edges : List (String × String)} :
    ∀ {nodeOrder : List String} {x : String}, x ∈ nodeOrder →
      x ∈ graphNodes nodeOrder edges := by
  induction edges with
  | nil => intro _ _ h; exact h
  | cons e es ih =>
    intro nodeOrder x h
    rw [graphNodes_cons]
    exact ih (mem_addNode_of_mem (mem_addNode_of_mem h))

lemma edge_mem_graphNodes {edges : List (String × String)} :
    ∀ {nodeOrder : List String} {e : String × String}, e ∈ edges →
      e.1 ∈ graphNodes nodeOrder edges ∧ e.2 ∈ graphNodes nodeOrder edges := by
  induction edges with
  | nil => intro _ _ h; cases h
  | cons e' es ih =>
    intro nodeOrder e h
    rcases List.mem_cons.mp h with rfl | h
    · rw [graphNodes_cons]
      constructor
      · exact mem_graphNodes_of_mem (mem_addNode_of_mem (mem_addNode_self _ _))
      · exact mem_graphNodes_of_mem (mem_addNode_self _ _)
    · rw [graphNodes_cons]
      exact ih h

lemma graphNodes_nodup {edges : List (String × String)} :
    ∀ {nodeOrder : List String}, nodeOrder.Nodup →
      (graphNodes nodeOrder edges).Nodup := by
  induction edges with
  | nil => intro _ h; exact h
  | cons e es ih =>
    intro nodeOrder h
    rw [graphNodes_cons]
    exact ih (addNode_nodup (addNode_nodup h))

lemma graphNodes_eq_of_closed {edges : List (String × String)} :
    ∀ {nodeOrder : List String},
      (∀ e ∈ edges, e.1 ∈ nodeOrder ∧ e.2 ∈ nodeOrder) →
      graphNodes nodeOrder edges = nodeOrder := by
  induction edges with
  | nil => intro _ _; rfl
  | cons e es ih =>
    intro nodeOrder h
    have h1 := (h e (List.mem_cons_self _ _)).1
    have h2 := (h e (List.mem_cons_self _ _)).2
    rw [graphNodes_cons, addNode_eq_of_mem h1, addNode_eq_of_mem h2]
    exact ih fun e' he' => h e' (List.mem_cons_of_mem _ he')

/-! ### Kahn loop: soundness -/

lemma nodeReady_spec {remaining : List String} {edges : List (String × String)}
    {v : String} (h : nodeReady remaining edges v = true) :
    ∀ u, u ∈ remaining → (u, v) ∉ edges := by
  intro u hu huv
  have h2 := List.all_eq_true.mp h (u, v) huv
  rw [Bool.not_eq_true', Bool.and_eq_false_iff] at h2
  rcases h2 with h2 | h2
  · simp at h2
  · rw [show (u, v).1 = u from rfl, List.contains,
      List.elem_eq_true_of_mem hu] at h2
    cases h2

lemma pickReady_mem {remaining : List String} {edges : List (String × String)}
    {v : String} (h : pickReady remaining edges = some v) : v ∈ remaining :=
  List.mem_of_find?_eq_some h

lemma pickReady_ready {remaining : List String} {edges : List (String × String)}
    {v : String} (h : pickReady remaining edges = some v) :
    ∀ u, u ∈ remaining → (u, v) ∉ edges :=
  nodeReady_spec (List.find?_some h)

/-- Invariant-carrying specification of the Kahn loop: a successful run
yields a permutation of emitted-so-far plus remaining, with no edge from a
later output position back to an earlier one and no self-loop on any output
node. -/
lemma kahnGo_spec (edges : List (String × String)) :
    ∀ (n : Nat) (remaining acc l : List String),
      kahnGo edges n remaining acc = some l →
      (∀ a ∈ acc, ∀ u ∈ remaining, (u, a) ∉ edges) →
      List.Pairwise (fun a b => (b, a) ∉ edges) acc.reverse →
      (∀ a ∈ acc, (a, a) ∉ edges) →
      l.Perm (acc.reverse ++ remaining) ∧
      List.Pairwise (fun a b => (b, a) ∉ edges) l ∧
      (∀ a ∈ l, (a, a) ∉ edges) := by
  intro n
  induction n with
  | zero =>
    intro remaining acc l h hcross hpair hself
    simp only [kahnGo] at h
    split at h
    · next hemp =>
      cases h
      rw [List.isEmpty_iff.mp hemp]
      exact ⟨by simp, hpair, by simpa using hself⟩
    · cases h
  | succ n ih =>
    intro remaining acc l h hcross hpair hself
    simp only [kahnGo] at h
    split at h
    · next hpick =>
      split at h
      · next hemp =>
        cases h
        rw [List.isEmpty_iff.mp hemp]
        exact ⟨by simp, hpair, by simpa using hself⟩
      · cases h
    · next v hpick =>
      have hv : v ∈ remaining := pickReady_mem hpick
      have hready := pickReady_ready hpick
      have hcross' : ∀ a ∈ v :: acc, ∀ u ∈ remaining.erase v, (u, a) ∉ edges := by
        intro a ha u hu
        have hu' : u ∈ remaining := List.mem_of_mem_erase hu
        rcases List.mem_cons.mp ha with rfl | ha
        · exact hready u hu'
        · exact hcross a ha u hu'
      have hpair' : List.Pairwise (fun a b => (b, a) ∉ edges) (v :: acc).reverse := by
        rw [List.reverse_cons, List.pairwise_append]
        refine ⟨hpair, List.pairwise_singleton _ _, ?_⟩
        intro a ha b hb
        rw [List.mem_singleton.mp hb]
        exact hcross a (List.mem_reverse.mp ha) v hv
      have hself' : ∀ a ∈ v :: acc, (a, a) ∉ edges := by
        intro a ha
        rcases List.mem_cons.mp ha with rfl | ha
        · exact hready a hv
        · exact hself a ha
      obtain ⟨hperm, hp, hs⟩ := ih (remaining.erase v) (v :: acc) l h hcross' hpair' hself'
      refine ⟨hperm.trans ?_, hp, hs⟩
      have heq : (v :: acc).reverse ++ remaining.erase v
          = acc.reverse ++ (v :: remaining.erase v) := by
        simp
      rw [heq]
      exact List.Perm.append_left _ (List.perm_cons_erase hv).symm

/-- A successful topological sort is a permutation of the node list, with
every edge pointing forwards in the output and no self-loops among output
nodes. -/
lemma topologicalSort_spec {nodes l : List String}
    {edges : List (String × String)} (h : topologicalSort nodes edges = some l) :
    l.Perm nodes ∧ List.Pairwise (fun a b => (b, a) ∉ edges) l ∧
      (∀ a ∈ l, (a, a) ∉ edges) := by
  obtain ⟨hperm, hp, hs⟩ :=
    kahnGo_spec edges nodes.length nodes [] l h
      (by intro a ha; cases ha) (by simp) (by intro a ha; cases ha)
  exact ⟨by simpa using hperm, hp, hs⟩

/-! ### Output positions respect edges -/

lemma edge_indexOf_lt {l : List String} {edges : List (String × String)}
    {u v : String}
    (hpair : List.Pairwise (fun a b => (b, a) ∉ edges) l)
    (_hnd : l.Nodup) (hself : ∀ a ∈ l, (a, a) ∉ edges)
    (he : (u, v) ∈ edges) (hu : u ∈ l) (hv : v ∈ l) :
    l.indexOf u < l.indexOf v := by
  have hne : u ≠ v := by rintro rfl; exact hself u hu he
  have hiu : l.indexOf u < l.length := List.indexOf_lt_length.mpr hu
  have hiv : l.indexOf v < l.length := List.indexOf_lt_length.mpr hv
  have hidx : l.indexOf u ≠ l.indexOf v := fun hh =>
    hne ((List.indexOf_inj hu hv).mp hh)
  rcases lt_or_gt_of_ne hidx with hlt | hgt
  · exact hlt
  · exfalso
    have hp := (List.pairwise_iff_get.mp hpair) ⟨l.indexOf v, hiv⟩ ⟨l.indexOf u, hiu⟩ hgt
    rw [List.indexOf_get, List.indexOf_get] at hp
    exact hp he

lemma chain_indexOf_lt {l : List String} {edges : List (String × String)}
    (hpair : List.Pairwise (fun a b => (b, a) ∉ edges) l)
    (hnd : l.Nodup) (hself : ∀ a ∈ l, (a, a) ∉ edges) :
    ∀ (c : List String) (a z : String), List.Chain' (edgeRel edges) (a :: c) →
      c ≠ [] → (∀ x ∈ a :: c, x ∈ l) → (a :: c).getLast? = some z →
      l.indexOf a < l.indexOf z := by
  intro c
  induction c with
  | nil => intro a z _ hne _ _; exact absurd rfl hne
  | cons b c' ih =>
    intro a z hch _ hmem hlast
    have hab : (a, b) ∈ edges := (List.chain'_cons.mp hch).1
    have h1 : l.indexOf a < l.indexOf b :=
      edge_indexOf_lt hpair hnd hself hab (hmem a (by simp)) (hmem b (by simp))
    cases c' with
    | nil =>
      have hzb : z = b := by
        rw [List.getLast?_cons_cons] at hlast
        simpa using hlast.symm
      rw [hzb]
      exact h1
    | cons d c'' =>
      have hlast' : (b :: d :: c'').getLast? = some z := by
        rwa [List.getLast?_cons_cons] at hlast
      exact h1.trans (ih b z (List.chain'_cons.mp hch).2 (by simp)
        (fun x hx => hmem x (List.mem_cons_of_mem _ hx)) hlast')

lemma chain_mem_endpoints {edges : List (String × String)} :
    ∀ (c : List String) (a : String), List.Chain' (edgeRel edges) (a :: c) →
      c ≠ [] → ∀ x ∈ a :: c, ∃ e ∈ edges, e.1 = x ∨ e.2 = x := by
  intro c
  induction c with
  | nil => intro a _ hne; exact absurd rfl hne
  | cons b c' ih =>
    intro a hch _ x hx
    have hab : (a, b) ∈ edges := (List.chain'_cons.mp hch).1
    rcases List.mem_cons.mp hx with rfl | hx
    · exact ⟨(x, b), hab, Or.inl rfl⟩
    · cases c' with
      | nil =>
        rw [List.mem_singleton.mp hx]
        exact ⟨(a, b), hab, Or.inr rfl⟩
      | cons d c'' =>
        exact ih b (List.chain'_cons.mp hch).2 (by simp) x hx

/-- If the edge list has a cycle whose nodes all appear in the node list,
Kahn's algorithm cannot produce a full ordering. -/
lemma topologicalSort_eq_none_of_hasCycle {nodes : List String}
    {edges : List (String × String)} (hnd : nodes.Nodup)
    (hclosed : ∀ e ∈ edges, e.1 ∈ nodes ∧ e.2 ∈ nodes)
    (hcyc : hasCycle edges) :
    topologicalSort nodes edges = none := by
  cases hts : topologicalSort nodes edges with
  | none => rfl
  | some l =>
    exfalso
    obtain ⟨hperm, hpair, hself⟩ := topologicalSort_spec hts
    have hndl : l.Nodup := hperm.nodup_iff.mpr hnd
    obtain ⟨c, hlen, hheadlast, hch⟩ := hcyc
    cases c with
    | nil => simp at hlen
    | cons a c' =>
      have hc'ne : c' ≠ [] := by
        cases c' with
        | nil => simp at hlen
        | cons _ _ => simp
      have hz : (a :: c').getLast? = some a := by
        rw [← hheadlast]; rfl
      have hmem : ∀ x ∈ a :: c', x ∈ l := by
        intro x hx
        obtain ⟨e, he, hxe⟩ := chain_mem_endpoints c' a hch hc'ne x hx
        have hcl := hclosed e he
        have hxn : x ∈ nodes := by
          rcases hxe with h | h
          · rw [← h]; exact hcl.1
          · rw [← h]; exact hcl.2
        exact hperm.mem_iff.mpr hxn
      exact lt_irrefl _ (chain_indexOf_lt hpair hndl hself c' a a hch hc'ne hmem hz)

/-! ### Kahn loop: completeness (a failed run exposes a stuck set) -/

lemma kahnGo_eq_none (edges : List (String × String)) :
    ∀ (n : Nat) (remaining acc : List String), remaining.length ≤ n →
      kahnGo edges n remaining acc = none →
      ∃ rem : List String, rem ≠ [] ∧ (∀ x ∈ rem, x ∈ remaining) ∧
        pickReady rem edges = none := by
  intro n
  induction n with
  | zero =>
    intro remaining acc hlen h
    rw [List.eq_nil_of_length_eq_zero (Nat.le_zero.mp hlen)] at h
    simp [kahnGo] at h
  | succ n ih =>
    intro remaining acc hlen h
    simp only [kahnGo] at h
    cases hpick : pickReady remaining edges with
    | none =>
      rw [hpick] at h
      by_cases hemp : remaining.isEmpty
      · rw [if_pos hemp] at h
        cases h
      · refine ⟨remaining, ?_, fun x hx => hx, hpick⟩
        intro hnil
        exact hemp (by rw [hnil]; rfl)
    | some v =>
      rw [hpick] at h
      have hv := pickReady_mem hpick
      have hlen' : (remaining.erase v).length ≤ n := by
        rw [List.length_erase_of_mem hv]
        omega
      obtain ⟨rem, h1, h2, h3⟩ := ih (remaining.erase v) (v :: acc) hlen' h
      exact ⟨rem, h1, fun x hx => List.mem_of_mem_erase (h2 x hx), h3⟩

lemma stuck_all_have_pred {rem : List String} {edges : List (String × String)}
    (h : pickReady rem edges = none) :
    ∀ v ∈ rem, ∃ u ∈ rem, (u, v) ∈ edges := by
  intro v hv
  have hnr : ¬ nodeReady rem edges v = true := List.find?_eq_none.mp h v hv
  have hf : nodeReady rem edges v = false := Bool.eq_false_iff.mpr hnr
  unfold nodeReady at hf
  obtain ⟨e, he, hprop⟩ := List.all_eq_false.mp hf
  obtain ⟨e1, e2⟩ := e
  have hprop' : (e2 == v && rem.contains e1) = true := by
    rcases Bool.eq_false_or_eq_true (e2 == v && rem.contains e1) with hh | hh
    · exact hh
    · exact absurd (by rw [show ((e1, e2).2 == v && rem.contains (e1, e2).1)
          = (e2 == v && rem.contains e1) from rfl, hh]; rfl) hprop
  rw [Bool.and_eq_true] at hprop'
  obtain ⟨h1, h2⟩ := hprop'
  have he2 : e2 = v := by simpa using h1
  rw [he2] at he
  exact ⟨e1, List.mem_of_elem_eq_true h2, he⟩

/-! ### Pigeonhole: a stuck set contains a cycle -/

lemma descChain_length (pred : String → String) (v : String) :
    ∀ d, (descChain pred v d).length = d + 1 := by
  intro d
  induction d with
  | zero => rfl
  | succ d ih => simp [descChain, ih]

lemma descChain_head? (pred : String → String) (v : String) :
    ∀ d, (descChain pred v d).head? = some (pred^[d] v) := by
  intro d
  cases d with
  | zero => simp [descChain]
  | succ d => rfl

lemma descChain_getLast? (pred : String → String) (v : String) :
    ∀ d, (descChain pred v d).getLast? = some v := by
  intro d
  induction d with
  | zero => rfl
  | succ d ih =>
    cases d with
    | zero => rfl
    | succ d' =>
      rw [show descChain pred v (d' + 1 + 1)
          = pred^[d' + 1 + 1] v :: pred^[d' + 1] v :: descChain pred v d' from rfl,
        List.getLast?_cons_cons]
      exact ih

lemma descChain_mem {rem : List String} {pred : String → String} {v : String}
    (hstep : ∀ w ∈ rem, pred w ∈ rem) (hv : v ∈ rem) :
    ∀ d, ∀ x ∈ descChain pred v d, x ∈ rem := by
  have hiter : ∀ k, pred^[k] v ∈ rem := by
    intro k
    induction k with
    | zero => simpa using hv
    | succ k ih =>
      rw [Function.iterate_succ_apply']
      exact hstep _ ih
  intro d
  induction d with
  | zero =>
    intro x hx
    rw [List.mem_singleton.mp hx]
    exact hv
  | succ d ih =>
    intro x hx
    rcases List.mem_cons.mp hx with rfl | hx
    · exact hiter (d + 1)
    · exact ih x hx

lemma descChain_chain' {rem : List String} {edges : List (String × String)}
    {pred : String → String} {v : String}
    (hstep : ∀ w ∈ rem, pred w ∈ rem ∧ (pred w, w) ∈ edges) (hv : v ∈ rem) :
    ∀ d, List.Chain' (edgeRel edges) (descChain pred v d) := by
  have hiter : ∀ k, pred^[k] v ∈ rem := by
    intro k
    induction k with
    | zero => simpa using hv
    | succ k ih =>
      rw [Function.iterate_succ_apply']
      exact (hstep _ ih).1
  intro d
  induction d with
  | zero => exact List.chain'_singleton v
  | succ d ih =>
    rw [show descChain pred v (d + 1) = pred^[d + 1] v :: descChain pred v d from rfl]
    refine List.chain'_cons'.mpr ⟨?_, ih⟩
    intro y hy
    rw [descChain_head? pred v d, Option.mem_def, Option.some_inj] at hy
    rw [← hy, Function.iterate_succ_apply']
    exact (hstep _ (hiter d)).2

lemma descChain_cycle {rem : List String} {edges : List (String × String)}
    {pred : String → String} {v0 : String} {i j : Nat}
    (hstep : ∀ w ∈ rem, pred w ∈ rem ∧ (pred w, w) ∈ edges)
    (hiter : ∀ k, pred^[k] v0 ∈ rem)
    (heq : pred^[i] v0 = pred^[j] v0) (hlt : i < j) :
    hasCycle edges := by
  refine ⟨descChain pred (pred^[i] v0) (j - i), ?_, ?_, ?_⟩
  · rw [descChain_length]
    omega
  · rw [descChain_head?, descChain_getLast?]
    congr 1
    rw [← Function.iterate_add_apply]
    have hji : j - i + i = j := by omega
    rw [hji]
    exact heq.symm
  · exact descChain_chain' hstep (hiter i) (j - i)

lemma hasCycle_of_all_have_pred {rem : List String}
    {edges : List (String × String)} (hne : rem ≠ [])
    (hall : ∀ v ∈ rem, ∃ u ∈ rem, (u, v) ∈ edges) :
    hasCycle edges := by
  classical
  have hchoice : ∀ v, ∃ u, v ∈ rem → u ∈ rem ∧ (u, v) ∈ edges := by
    intro v
    by_cases hv : v ∈ rem
    · obtain ⟨u, hu, he⟩ := hall v hv
      exact ⟨u, fun _ => ⟨hu, he⟩⟩
    · exact ⟨v, fun hcon => absurd hcon hv⟩
  choose pred hpred using hchoice
  obtain ⟨v0, hv0⟩ := List.exists_mem_of_ne_nil rem hne
  have hstep : ∀ w ∈ rem, pred w ∈ rem ∧ (pred w, w) ∈ edges :=
    fun w hw => hpred w hw
  have hiter : ∀ k, pred^[k] v0 ∈ rem := by
    intro k
    induction k with
    | zero => simpa using hv0
    | succ k ih =>
      rw [Function.iterate_succ_apply']
      exact (hstep _ ih).1
  have hcard : rem.toFinset.card < (Finset.univ : Finset (Fin (rem.length + 1))).card := by
    rw [Finset.card_univ, Fintype.card_fin]
    exact Nat.lt_succ_of_le rem.toFinset_card_le
  obtain ⟨i, -, j, -, hij, heq⟩ :=
    Finset.exists_ne_map_eq_of_card_lt_of_maps_to hcard
      (fun (k : Fin (rem.length + 1)) _ => List.mem_toFinset.mpr (hiter k.val))
  have hij' : i.val ≠ j.val := fun hh => hij (Fin.ext hh)
  rcases Nat.lt_or_ge i.val j.val with hlt | hge
  · exact descChain_cycle hstep hiter heq hlt
  · exact descChain_cycle hstep hiter heq.symm
      (Nat.lt_of_le_of_ne hge (Ne.symm hij'))

/-- A failed `topological_sort` implies a cycle among the edges. -/
lemma hasCycle_of_topologicalSort_eq_none {nodes : List String}
    {edges : List (String × String)}
    (h : topologicalSort nodes edges = none) : hasCycle edges := by
  obtain ⟨rem, hne, _, hstuck⟩ :=
    kahnGo_eq_none edges nodes.length nodes [] le_rfl h
  exact hasCycle_of_all_have_pred hne (stuck_all_have_pred hstuck)

/-- On an acyclic edge list the sort always succeeds. -/
lemma topologicalSort_isSome_of_acyclic (nodes : List String)
    {edges : List (String × String)} (h : ¬ hasCycle edges) :
    ∃ l, topologicalSort nodes edges = some l := by
  cases hts : topologicalSort nodes edges with
  | none => exact absurd (hasCycle_of_topologicalSort_eq_none hts) h
  | some l => exact ⟨l, rfl⟩

/-! ### Endpoint-level helper lemmas -/

lemma get_execution_order_eq {nodeOrder : List String} {db : DB} {wid : String}
    {w : WorkflowRec} (hw : check_workflow_exists db wid = .ok w) :
    get_execution_order nodeOrder db wid =
      match topologicalSort
          (graphNodes nodeOrder (workflowEdges db w.id)) (workflowEdges db w.id) with
        | some l => (db, .ok (.order l))
        | none => (db, .ok .cycleDetected) := by
  unfold get_execution_order
  rw [hw]

lemma check_workflow_exists_congr {db db' : DB} (wid : String)
    (h : db'.workflows = db.workflows) :
    check_workflow_exists db' wid = check_workflow_exists db wid := by
  unfold check_workflow_exists
  rw [h]

lemma check_step_exists_congr {db db' : DB} (wfid : Nat) (sid : String)
    (h : db'.steps = db.steps) :
    check_step_exists db' wfid sid = check_step_exists db wfid sid := by
  unfold check_step_exists
  rw [h]

lemma find?_append_none {α : Type} (p : α → Bool) {l1 : List α} (l2 : List α)
    (h : l1.find? p = none) : (l1 ++ l2).find? p = l2.find? p := by
  induction l1 with
  | nil => rfl
  | cons a l1 ih =>
    cases hpa : p a with
    | true =>
      rw [List.find?_cons_of_pos _ hpa] at h
      cases h
    | false =>
      have hna : ¬ p a := by simp [hpa]
      rw [List.find?_cons_of_neg _ hna] at h
      rw [List.cons_append, List.find?_cons_of_neg _ hna]
      exact ih h

lemma check_workflow_exists_ok {db : DB} {wid : String} {w : WorkflowRec}
    (h : check_workflow_exists db wid = .ok w) :
    w ∈ db.workflows ∧ w.workflow_str_id = wid := by
  unfold check_workflow_exists at h
  cases hf : db.workflows.find? (fun x => x.workflow_str_id == wid) with
  | none => rw [hf] at h; cases h
  | some w' =>
    rw [hf] at h
    cases h
    exact ⟨List.mem_of_find?_eq_some hf, by simpa using List.find?_some hf⟩

lemma check_step_exists_ok {db : DB} {wfid : Nat} {sid : String} {st : StepRec}
    (h : check_step_exists db wfid sid = .ok st) :
    st ∈ db.steps ∧ st.workflow_id = wfid ∧ st.step_str_id = sid := by
  unfold check_step_exists at h
  cases hf : db.steps.find?
      (fun s => s.workflow_id == wfid && s.step_str_id == sid) with
  | none => rw [hf] at h; cases h
  | some st' =>
    rw [hf] at h
    cases h
    have hp := List.find?_some hf
    simp only [Bool.and_eq_true, beq_iff_eq] at hp
    exact ⟨List.mem_of_find?_eq_some hf, hp.1, hp.2⟩

lemma not_hasCycle_of_topologicalSort_eq_some {nodes l : List String}
    {edges : List (String × String)} (hnd : nodes.Nodup)
    (hclosed : ∀ e ∈ edges, e.1 ∈ nodes ∧ e.2 ∈ nodes)
    (h : topologicalSort nodes edges = some l) : ¬ hasCycle edges := by
  intro hcyc
  rw [topologicalSort_eq_none_of_hasCycle hnd hclosed hcyc] at h
  cases h

/-! ### State invariants reachable through the endpoints -/

lemma create_workflow_inv {db : DB} (id name : String) (h : DBInv db) :
    DBInv (create_workflow db id name).1 := by
  obtain ⟨h1, h2, h3⟩ := h
  unfold create_workflow
  cases hfind : db.workflows.find? (fun w => w.workflow_str_id == id) with
  | some w => exact ⟨h1, h2, h3⟩
  | none =>
    refine ⟨?_, h2, ?_⟩
    · unfold WorkflowIdsUnique at h1 ⊢
      simp only [List.map_append, List.map_cons, List.map_nil]
      rw [List.nodup_append]
      refine ⟨h1, List.nodup_singleton _, ?_⟩
      intro a ha hb
      rw [List.mem_singleton.mp hb] at ha
      obtain ⟨w, hw, hwa⟩ := List.mem_map.mp ha
      have := List.find?_eq_none.mp hfind w hw
      simp only [beq_iff_eq] at this
      exact this hwa
    · intro d hd
      exact h3 d hd

lemma create_step_inv {db : DB} (wid sid desc : String) (h : DBInv db) :
    DBInv (create_step db wid sid desc).1 := by
  obtain ⟨h1, h2, h3⟩ := h
  unfold create_step
  split
  · exact ⟨h1, h2, h3⟩
  · next w hw =>
    split
    · exact ⟨h1, h2, h3⟩
    · next hfind =>
      refine ⟨h1, ?_, ?_⟩
      · unfold StepKeysUnique at h2 ⊢
        simp only [List.map_append, List.map_cons, List.map_nil]
        rw [List.nodup_append]
        refine ⟨h2, List.nodup_singleton _, ?_⟩
        intro a ha hb
        rw [List.mem_singleton.mp hb] at ha
        obtain ⟨s, hs, hsa⟩ := List.mem_map.mp ha
        have hne := List.find?_eq_none.mp hfind s hs
        simp only [Bool.and_eq_true, beq_iff_eq] at hne
        have hfst : s.workflow_id = w.id := congrArg Prod.fst hsa
        have hsnd : s.step_str_id = sid := congrArg Prod.snd hsa
        exact hne ⟨hfst, hsnd⟩
      · intro d hd
        obtain ⟨⟨s1, hs1, hp1⟩, ⟨s2, hs2, hp2⟩⟩ := h3 d hd
        exact ⟨⟨s1, List.mem_append_left _ hs1, hp1⟩,
          ⟨s2, List.mem_append_left _ hs2, hp2⟩⟩

lemma create_dependency_inv {db : DB} (wid sid pid : String) (h : DBInv db) :
    DBInv (create_dependency db wid sid pid).1 := by
  obtain ⟨h1, h2, h3⟩ := h
  unfold create_dependency
  split
  · exact ⟨h1, h2, h3⟩
  · next w hw =>
    split
    · exact ⟨h1, h2, h3⟩
    · split
      · exact ⟨h1, h2, h3⟩
      · next st1 hs1 =>
        split
        · exact ⟨h1, h2, h3⟩
        · next st2 hs2 =>
          split
          · exact ⟨h1, h2, h3⟩
          · next hfind =>
            refine ⟨h1, h2, ?_⟩
            intro d hd
            rcases List.mem_append.mp hd with hd | hd
            · exact h3 d hd
            · rw [List.mem_singleton.mp hd]
              have hm1 := check_step_exists_ok hs1
              have hm2 := check_step_exists_ok hs2
              exact ⟨⟨st1, hm1.1, hm1.2.1, hm1.2.2⟩,
                ⟨st2, hm2.1, hm2.2.1, hm2.2.2⟩⟩

lemma applyOp_inv {db : DB} (op : Op) (h : DBInv db) : DBInv (applyOp db op) := by
  cases op with
  | createWorkflow id name => exact create_workflow_inv id name h
  | addStep wid sid desc => exact create_step_inv wid sid desc h
  | addDependency wid sid pid => exact create_dependency_inv wid sid pid h

lemma runOps_inv (ops : List Op) : DBInv (runOps ops) := by
  have hbase : DBInv DB.empty := by
    refine ⟨?_, ?_, ?_⟩
    · exact List.nodup_nil
    · exact List.nodup_nil
    · intro d hd; cases hd
  unfold runOps
  have : ∀ (l : List Op) (db : DB), DBInv db → DBInv (l.foldl applyOp db) := by
    intro l
    induction l with
    | nil => intro db h; exact h
    | cons op l ih => intro db h; exact ih _ (applyOp_inv op h)
  exact this ops DB.empty hbase

lemma keys_nodup_filter_map (wfid : Nat) :
    ∀ l : List StepRec,
      (l.map (fun s => (s.workflow_id, s.step_str_id))).Nodup →
      ((l.filter (fun s => s.workflow_id == wfid)).map
        (fun s => s.step_str_id)).Nodup := by
  intro l
  induction l with
  | nil => intro _; exact List.nodup_nil
  | cons s rest ih =>
    intro h
    rw [List.map_cons, List.nodup_cons] at h
    obtain ⟨hnotin, hrest⟩ := h
    rw [List.filter_cons]
    by_cases hs : s.workflow_id = wfid
    · rw [if_pos (by simpa using hs)]
      rw [List.map_cons, List.nodup_cons]
      refine ⟨?_, ih hrest⟩
      intro hmem
      obtain ⟨s', hs', hseq⟩ := List.mem_map.mp hmem
      have hs'w : s'.workflow_id = wfid := by
        simpa using List.of_mem_filter hs'
      apply hnotin
      refine List.mem_map.mpr ⟨s', List.mem_of_mem_filter hs', ?_⟩
      rw [hs'w, hseq, hs]
    · rw [if_neg (by simpa using hs)]
      exact ih hrest

/-- Step string ids of one workflow are duplicate-free whenever no two
steps share the (workflow, step id) key. -/
lemma workflowStepIds_nodup {db : DB} (h : StepKeysUnique db) (wfid : Nat) :
    (workflowStepIds db wfid).Nodup :=
  keys_nodup_filter_map wfid db.steps h

/-! ### Claims -/

/-- C1: for every workflow whose stored dependencies form a DAG (and whose
stored state satisfies the entity invariants), `get_execution_order`
succeeds — under every enumeration `nodeOrder` of the step-id set — with an
order that is a permutation of exactly the workflow's step ids, and every
stored dependency's prerequisite occupies a strictly smaller position than
its dependent. -/
theorem getExecutionOrder_dag_correct (db : DB) (wid : String)
    (w : WorkflowRec) (nodeOrder : List String)
    (hw : check_workflow_exists db wid = .ok w)
    (hperm : nodeOrder.Perm (workflowStepIds db w.id))
    (hndS : (workflowStepIds db w.id).Nodup)
    (hclosed : ∀ e ∈ workflowEdges db w.id,
      e.1 ∈ workflowStepIds db w.id ∧ e.2 ∈ workflowStepIds db w.id)
    (hdag : ¬ hasCycle (workflowEdges db w.id)) :
    ∃ l, get_execution_order nodeOrder db wid = (db, .ok (.order l)) ∧
      l.Perm (workflowStepIds db w.id) ∧
      ∀ e ∈ workflowEdges db w.id, l.indexOf e.1 < l.indexOf e.2 := by
  have hnd : nodeOrder.Nodup := hperm.nodup_iff.mpr hndS
  have hclosed' : ∀ e ∈ workflowEdges db w.id,
      e.1 ∈ nodeOrder ∧ e.2 ∈ nodeOrder := by
    intro e he
    obtain ⟨h1, h2⟩ := hclosed e he
    exact ⟨hperm.mem_iff.mpr h1, hperm.mem_iff.mpr h2⟩
  have hg : graphNodes nodeOrder (workflowEdges db w.id) = nodeOrder :=
    graphNodes_eq_of_closed hclosed'
  obtain ⟨l, hts⟩ := topologicalSort_isSome_of_acyclic
    (graphNodes nodeOrder (workflowEdges db w.id)) hdag
  obtain ⟨hlperm, hpair, hself⟩ := topologicalSort_spec hts
  rw [hg] at hlperm
  have hlnd : l.Nodup := hlperm.nodup_iff.mpr hnd
  refine ⟨l, ?_, hlperm.trans hperm, ?_⟩
  · rw [get_execution_order_eq hw, hts]
  · intro e he
    obtain ⟨h1, h2⟩ := hclosed' e he
    have he' : (e.1, e.2) ∈ workflowEdges db w.id := by
      rw [Prod.mk.eta]
      exact he
    exact edge_indexOf_lt hpair hlnd hself he'
      (hlperm.mem_iff.mpr h1) (hlperm.mem_iff.mpr h2)

theorem getExecutionOrder_dag_correct_witness :
    ∃ l, get_execution_order ["C", "B", "A"] wf1db "wf1"
        = (wf1db, .ok (.order l)) ∧
      l.Perm (workflowStepIds wf1db 1) ∧
      ∀ e ∈ workflowEdges wf1db 1, l.indexOf e.1 < l.indexOf e.2 :=
  getExecutionOrder_dag_correct wf1db "wf1" ⟨1, "wf1", "w"⟩ ["C", "B", "A"]
    (by decide) (by decide) (by decide) (by decide)
    (not_hasCycle_of_topologicalSort_eq_some (by decide) (by decide)
      (show topologicalSort ["A", "B", "C"] (workflowEdges wf1db 1)
          = some ["A", "B", "C"] by decide))

/-- C2: for every workflow whose stored dependencies contain a cycle,
`get_execution_order` reports `cycle_detected` (under every duplicate-free
node enumeration) and never a partial order; and whenever it does return an
order, that order contains every step id of the workflow. -/
theorem getExecutionOrder_cycle_detected (db : DB) (wid : String)
    (w : WorkflowRec) (nodeOrder : List String)
    (hw : check_workflow_exists db wid = .ok w)
    (hnd : nodeOrder.Nodup)
    (hcyc : hasCycle (workflowEdges db w.id)) :
    get_execution_order nodeOrder db wid = (db, .ok .cycleDetected) ∧
    ∀ nodeOrder' l : List String,
      (∀ x, x ∈ nodeOrder' ↔ x ∈ workflowStepIds db w.id) →
      (get_execution_order nodeOrder' db wid).2 = .ok (.order l) →
      ∀ x ∈ workflowStepIds db w.id, x ∈ l := by
  constructor
  · rw [get_execution_order_eq hw,
      topologicalSort_eq_none_of_hasCycle (graphNodes_nodup hnd)
        (fun e he => edge_mem_graphNodes he) hcyc]
  · intro nodeOrder' l hmem hres x hx
    rw [get_execution_order_eq hw] at hres
    cases hts : topologicalSort (graphNodes nodeOrder' (workflowEdges db w.id))
        (workflowEdges db w.id) with
    | none => rw [hts] at hres; cases hres
    | some l' =>
      rw [hts] at hres
      have hl : l' = l := by simpa using hres
      obtain ⟨hlperm, -, -⟩ := topologicalSort_spec hts
      rw [← hl]
      exact hlperm.mem_iff.mpr
        (mem_graphNodes_of_mem ((hmem x).mpr hx))

theorem getExecutionOrder_cycle_detected_witness :
    get_execution_order ["A", "B"] wf2db "wf2" = (wf2db, .ok .cycleDetected) ∧
    ∀ nodeOrder' l : List String,
      (∀ x, x ∈ nodeOrder' ↔ x ∈ workflowStepIds wf2db 1) →
      (get_execution_order nodeOrder' wf2db "wf2").2 = .ok (.order l) →
      ∀ x ∈ workflowStepIds wf2db 1, x ∈ l :=
  getExecutionOrder_cycle_detected wf2db "wf2" ⟨1, "wf2", "w"⟩ ["A", "B"]
    (by decide) (by decide) (hasCycle_two (a := "A") (b := "B")
      (by decide) (by decide))

/-- C3: the claimed lexicographic tie-break does not hold of the code: the
output order follows the unspecified iteration order of the Python set
`step_ids`.  For workflow `wf3` (steps A, B, C, no dependencies) and the
legitimate set enumeration `["B", "A", "C"]`, the code returns
`["B", "A", "C"]`, not the claimed `["A", "B", "C"]`. -/
theorem getExecutionOrder_tiebreak_not_lex :
    (["B", "A", "C"] : List String).Perm (workflowStepIds wf3db 1) ∧
    get_execution_order ["B", "A", "C"] wf3db "wf3"
      = (wf3db, .ok (.order ["B", "A", "C"])) ∧
    (["B", "A", "C"] : List String) ≠ ["A", "B", "C"] := by
  refine ⟨by decide, by decide, by decide⟩

/-- C4: an `AddDependency` call that passes the five validation checks is
admitted (stored) regardless of whether it closes a cycle — the validation
outcome never depends on cycle structure — and when the edge does close a
cycle, a subsequent `get_execution_order` reports `cycle_detected`, not a
partial order. -/
theorem addDependency_cycle_admitted (db : DB) (wid s p : String)
    (w : WorkflowRec) (st1 st2 : StepRec)
    (hw : check_workflow_exists db wid = .ok w)
    (hne : s ≠ p)
    (hs1 : check_step_exists db w.id s = .ok st1)
    (hs2 : check_step_exists db w.id p = .ok st2)
    (hdup : db.dependencies.find? (fun d => d.workflow_id == w.id &&
      d.step_str_id == s && d.prerequisite_step_str_id == p) = none) :
    ∃ db', create_dependency db wid s p = (db', .ok "dependency_added") ∧
      workflowEdges db' w.id = workflowEdges db w.id ++ [(p, s)] ∧
      ∀ nodeOrder : List String, nodeOrder.Nodup →
        hasCycle (workflowEdges db w.id ++ [(p, s)]) →
        get_execution_order nodeOrder db' wid = (db', .ok .cycleDetected) := by
  have hval : validate_no_self_dependency s p = .ok () := by
    unfold validate_no_self_dependency
    rw [if_neg (by simpa using hne)]
  have hrun : create_dependency db wid s p =
      ({ db with
          dependencies := db.dependencies ++ [⟨db.nextDependencyId, w.id, s, p⟩],
          nextDependencyId := db.nextDependencyId + 1 },
        .ok "dependency_added") := by
    unfold create_dependency
    simp only [hw, hval, hs1, hs2, hdup]
  have hedges : workflowEdges { db with
      dependencies := db.dependencies ++ [⟨db.nextDependencyId, w.id, s, p⟩],
      nextDependencyId := db.nextDependencyId + 1 } w.id
      = workflowEdges db w.id ++ [(p, s)] := by
    unfold workflowEdges
    rw [show ({ db with
        dependencies := db.dependencies ++ [⟨db.nextDependencyId, w.id, s, p⟩],
        nextDependencyId := db.nextDependencyId + 1 } : DB).dependencies
      = db.dependencies ++ [⟨db.nextDependencyId, w.id, s, p⟩] from rfl]
    rw [List.filter_append, List.map_append]
    simp
  refine ⟨_, hrun, hedges, ?_⟩
  intro nodeOrder hndN hcyc
  have hw' : check_workflow_exists { db with
      dependencies := db.dependencies ++ [⟨db.nextDependencyId, w.id, s, p⟩],
      nextDependencyId := db.nextDependencyId + 1 } wid = .ok w := by
    rw [check_workflow_exists_congr wid rfl]
    exact hw
  rw [get_execution_order_eq hw', hedges,
    topologicalSort_eq_none_of_hasCycle (graphNodes_nodup hndN)
      (fun e he => edge_mem_graphNodes he) hcyc]

theorem addDependency_cycle_admitted_witness :
    ∃ db', create_dependency wf4db "wf4" "A" "B" = (db', .ok "dependency_added") ∧
      workflowEdges db' 1 = workflowEdges wf4db 1 ++ [("B", "A")] ∧
      ∀ nodeOrder : List String, nodeOrder.Nodup →
        hasCycle (workflowEdges wf4db 1 ++ [("B", "A")]) →
        get_execution_order nodeOrder db' "wf4" = (db', .ok .cycleDetected) :=
  addDependency_cycle_admitted wf4db "wf4" "A" "B" ⟨1, "wf4", "w"⟩
    ⟨1, "A", "", 1⟩ ⟨2, "B", "", 1⟩
    (by decide) (by decide) (by decide) (by decide) (by decide)

/-- C5: on an existing workflow, an `AddDependency` call whose dependent id
equals its prerequisite id fails with the self-dependency error, for every
store — in particular whether or not a step with that id exists, since the
self-dependency check precedes the step-existence checks. -/
theorem addDependency_self_rejected (db : DB) (wid s : String)
    (w : WorkflowRec) (hw : check_workflow_exists db wid = .ok w) :
    create_dependency db wid s s =
      (db, .error (.badRequest
        "Self-dependency not allowed: step cannot depend on itself")) := by
  have hval : validate_no_self_dependency s s = .error (.badRequest
      "Self-dependency not allowed: step cannot depend on itself") := by
    unfold validate_no_self_dependency
    rw [if_pos (by simp)]
  unfold create_dependency
  simp only [hw, hval]

theorem addDependency_self_rejected_witness :
    create_dependency wf5db "wf5" "A" "A" =
      (wf5db, .error (.badRequest
        "Self-dependency not allowed: step cannot depend on itself")) :=
  addDependency_self_rejected wf5db "wf5" "A" ⟨1, "wf5", "w"⟩ (by decide)

/-- C6: if an `AddDependency` call succeeded, repeating the same
(workflow, dependent, prerequisite) triple on the resulting state fails
with the duplicate-dependency error. -/
theorem addDependency_duplicate_rejected (db db' : DB) (wid s p r : String)
    (h : create_dependency db wid s p = (db', .ok r)) :
    create_dependency db' wid s p =
      (db', .error (.badRequest "Dependency already exists")) := by
  unfold create_dependency at h
  split at h
  · exact absurd (congrArg Prod.snd h) (by simp)
  · next w hw =>
    split at h
    · exact absurd (congrArg Prod.snd h) (by simp)
    · next u hval =>
      split at h
      · exact absurd (congrArg Prod.snd h) (by simp)
      · next st1 hs1 =>
        split at h
        · exact absurd (congrArg Prod.snd h) (by simp)
        · next st2 hs2 =>
          split at h
          · exact absurd (congrArg Prod.snd h) (by simp)
          · next hfind =>
            have hdb : db' = { db with
                dependencies := db.dependencies ++
                  [⟨db.nextDependencyId, w.id, s, p⟩],
                nextDependencyId := db.nextDependencyId + 1 } :=
              (congrArg Prod.fst h).symm
            have hw2 : check_workflow_exists db' wid = .ok w := by
              rw [check_workflow_exists_congr wid (by rw [hdb])]
              exact hw
            have hs1' : check_step_exists db' w.id s = .ok st1 := by
              rw [check_step_exists_congr w.id s (by rw [hdb])]
              exact hs1
            have hs2' : check_step_exists db' w.id p = .ok st2 := by
              rw [check_step_exists_congr w.id p (by rw [hdb])]
              exact hs2
            have hfind' : db'.dependencies.find?
                (fun d => d.workflow_id == w.id && d.step_str_id == s &&
                  d.prerequisite_step_str_id == p)
                = some ⟨db.nextDependencyId, w.id, s, p⟩ := by
              rw [hdb, show ({ db with
                  dependencies := db.dependencies ++
                    [⟨db.nextDependencyId, w.id, s, p⟩],
                  nextDependencyId := db.nextDependencyId + 1 } : DB).dependencies
                = db.dependencies ++ [⟨db.nextDependencyId, w.id, s, p⟩] from rfl,
                find?_append_none _ _ hfind]
              simp [List.find?]
            unfold create_dependency
            simp only [hw2, hval, hs1', hs2', hfind']

theorem addDependency_duplicate_rejected_witness :
    create_dependency wf6db' "wf6" "B" "A" =
      (wf6db', .error (.badRequest "Dependency already exists")) :=
  addDependency_duplicate_rejected wf6db wf6db' "wf6" "B" "A"
    "dependency_added" (by decide)

lemma create_workflow_taken (db : DB) (id name : String)
    (h : ∃ w ∈ db.workflows, w.workflow_str_id = id) :
    (create_workflow db id name).2 =
      .error (.badRequest "Workflow ID already exists") := by
  obtain ⟨w, hwmem, hid⟩ := h
  unfold create_workflow
  cases hfind : db.workflows.find? (fun x => x.workflow_str_id == id) with
  | some _ => rfl
  | none =>
    exfalso
    have hne := List.find?_eq_none.mp hfind w hwmem
    simp only [beq_iff_eq] at hne
    exact hne hid

lemma create_step_workflow_missing (db : DB) (wid sid desc : String)
    (h : ∀ w ∈ db.workflows, w.workflow_str_id ≠ wid) :
    (create_step db wid sid desc).2 =
      .error (.notFound s!"Workflow {wid} not found") := by
  have hw : check_workflow_exists db wid =
      .error (.notFound s!"Workflow {wid} not found") := by
    unfold check_workflow_exists
    cases hfind : db.workflows.find? (fun x => x.workflow_str_id == wid) with
    | some w =>
      exact absurd (by simpa using List.find?_some hfind)
        (h w (List.mem_of_find?_eq_some hfind))
    | none => rfl
  unfold create_step
  simp only [hw]

lemma create_step_taken (db : DB) (wid sid desc : String) (w : WorkflowRec)
    (st : StepRec) (hw : check_workflow_exists db wid = .ok w)
    (hmem : st ∈ db.steps) (h1 : st.workflow_id = w.id)
    (h2 : st.step_str_id = sid) :
    (create_step db wid sid desc).2 =
      .error (.badRequest s!"Step {sid} already exists in workflow") := by
  unfold create_step
  simp only [hw]
  cases hfind : db.steps.find?
      (fun s => s.workflow_id == w.id && s.step_str_id == sid) with
  | some _ => rfl
  | none =>
    exfalso
    have hne := List.find?_eq_none.mp hfind st hmem
    simp only [Bool.and_eq_true, beq_iff_eq] at hne
    exact hne ⟨h1, h2⟩

/-- C7: after every sequence of endpoint calls against a fresh store,
workflow string ids are globally unique and step string ids are unique
within their owning workflow; `create_workflow` rejects a taken workflow
id with AlreadyExists (HTTP 400), and `create_step` rejects a missing
workflow with NotFound (HTTP 404) and a taken step id with AlreadyExists
(HTTP 400). -/
theorem identifier_uniqueness (ops : List Op) :
    WorkflowIdsUnique (runOps ops) ∧
    (∀ wfid : Nat, (workflowStepIds (runOps ops) wfid).Nodup) ∧
    (∀ id name : String,
      (∃ w ∈ (runOps ops).workflows, w.workflow_str_id = id) →
      (create_workflow (runOps ops) id name).2 =
        .error (.badRequest "Workflow ID already exists")) ∧
    (∀ wid sid desc : String,
      (∀ w ∈ (runOps ops).workflows, w.workflow_str_id ≠ wid) →
      (create_step (runOps ops) wid sid desc).2 =
        .error (.notFound s!"Workflow {wid} not found")) ∧
    (∀ wid sid desc : String, ∀ w : WorkflowRec, ∀ st : StepRec,
      check_workflow_exists (runOps ops) wid = .ok w →
      st ∈ (runOps ops).steps → st.workflow_id = w.id → st.step_str_id = sid →
      (create_step (runOps ops) wid sid desc).2 =
        .error (.badRequest s!"Step {sid} already exists in workflow")) := by
  obtain ⟨h1, h2, h3⟩ := runOps_inv ops
  exact ⟨h1, fun wfid => workflowStepIds_nodup h2 wfid,
    fun id name h => create_workflow_taken _ id name h,
    fun wid sid desc h => create_step_workflow_missing _ wid sid desc h,
    fun wid sid desc w st hw hmem ha hb =>
      create_step_taken _ wid sid desc w st hw hmem ha hb⟩

theorem identifier_uniqueness_witness :
    WorkflowIdsUnique (runOps wf1ops) ∧
    (workflowStepIds (runOps wf1ops) 1).Nodup ∧
    (create_workflow (runOps wf1ops) "wf1" "again").2 =
      .error (.badRequest "Workflow ID already exists") ∧
    (create_step (runOps wf1ops) "nope" "X" "").2 =
      .error (.notFound "Workflow nope not found") ∧
    (create_step (runOps wf1ops) "wf1" "A" "").2 =
      .error (.badRequest "Step A already exists in workflow") := by
  obtain ⟨h1, h2, h3, h4, h5⟩ := identifier_uniqueness wf1ops
  exact ⟨h1, h2 1, h3 "wf1" "again" ⟨⟨1, "wf1", "w"⟩, by decide, rfl⟩,
    h4 "nope" "X" "" (by decide),
    h5 "wf1" "A" "" ⟨1, "wf1", "w"⟩ ⟨1, "A", "", 1⟩ (by decide) (by decide)
      rfl rfl⟩

/-- C8: `get_execution_order` does not mutate the store, and calling it
twice on the unchanged store (with the same set enumeration, as within one
process) yields the identical result. -/
theorem getExecutionOrder_pure (nodeOrder : List String) (db : DB)
    (wid : String) :
    (get_execution_order nodeOrder db wid).1 = db ∧
    get_execution_order nodeOrder (get_execution_order nodeOrder db wid).1 wid
      = get_execution_order nodeOrder db wid := by
  have h1 : (get_execution_order nodeOrder db wid).1 = db := by
    unfold get_execution_order
    split
    · rfl
    · dsimp only
      split <;> rfl
  exact ⟨h1, by rw [h1]⟩

lemma create_step_cases (db : DB) (wid sid desc : String) :
    (create_step db wid sid desc).1 = db ∨
    ∃ resp, (create_step db wid sid desc).2 = .ok resp := by
  unfold create_step
  split
  · exact Or.inl rfl
  · split
    · exact Or.inl rfl
    · exact Or.inr ⟨_, rfl⟩

lemma create_dependency_cases (db : DB) (wid s p : String) :
    (create_dependency db wid s p).1 = db ∨
    ∃ resp, (create_dependency db wid s p).2 = .ok resp := by
  unfold create_dependency
  split
  · exact Or.inl rfl
  · split
    · exact Or.inl rfl
    · split
      · exact Or.inl rfl
      · split
        · exact Or.inl rfl
        · split
          · exact Or.inl rfl
          · exact Or.inr ⟨_, rfl⟩

/-- C9: every failing `AddStep` or `AddDependency` call leaves the stored
state exactly as it was: in the source all checks precede the single
insert. -/
theorem mutation_free_on_error (db : DB) (wid sid pid desc : String) :
    (∀ e : ApiError, (create_step db wid sid desc).2 = .error e →
      (create_step db wid sid desc).1 = db) ∧
    (∀ e : ApiError, (create_dependency db wid sid pid).2 = .error e →
      (create_dependency db wid sid pid).1 = db) := by
  constructor
  · intro e h
    rcases create_step_cases db wid sid desc with hc | ⟨resp, hr⟩
    · exact hc
    · rw [hr] at h
      cases h
  · intro e h
    rcases create_dependency_cases db wid sid pid with hc | ⟨resp, hr⟩
    · exact hc
    · rw [hr] at h
      cases h

theorem mutation_free_on_error_witness :
    (create_step DB.empty "missing" "S" "").1 = DB.empty ∧
    (create_dependency DB.empty "missing" "S" "P").1 = DB.empty :=
  ⟨(mutation_free_on_error DB.empty "missing" "S" "P" "").1
      (.notFound "Workflow missing not found") (by decide),
    (mutation_free_on_error DB.empty "missing" "S" "P" "").2
      (.notFound "Workflow missing not found") (by decide)⟩

/-- C10: on an existing workflow that owns no steps (in a store whose
dependencies all have existing endpoints), `get_execution_order` succeeds
with the empty order — no error and no cycle indication.  The enumeration
of the empty step-id set is `[]`. -/
theorem getExecutionOrder_empty_workflow (db : DB) (wid : String)
    (w : WorkflowRec) (hw : check_workflow_exists db wid = .ok w)
    (hdep : DepEndpointsExist db)
    (hempty : workflowStepIds db w.id = []) :
    get_execution_order [] db wid = (db, .ok (.order [])) := by
  have hsteps : ∀ s ∈ db.steps, s.workflow_id ≠ w.id := by
    intro s hs hcon
    have hmem : s.step_str_id ∈ workflowStepIds db w.id := by
      unfold workflowStepIds
      exact List.mem_map.mpr ⟨s, List.mem_filter.mpr ⟨hs, by simpa using hcon⟩, rfl⟩
    rw [hempty] at hmem
    cases hmem
  have hedges : workflowEdges db w.id = [] := by
    unfold workflowEdges
    have hnil : db.dependencies.filter (fun d => d.workflow_id == w.id) = [] := by
      apply List.filter_eq_nil_iff.mpr
      intro d hd hbeq
      obtain ⟨⟨s, hs, hsw, -⟩, -⟩ := hdep d hd
      exact hsteps s hs (by rw [hsw]; simpa using hbeq)
    rw [hnil]
    rfl
  rw [get_execution_order_eq hw, hedges]
  rfl

theorem getExecutionOrder_empty_workflow_witness :
    get_execution_order [] wf5db "wf5" = (wf5db, .ok (.order [])) :=
  getExecutionOrder_empty_workflow wf5db "wf5" ⟨1, "wf5", "w"⟩
    (by decide)
    (by
      intro d hd
      rw [show wf5db.dependencies = [] from rfl] at hd
      cases hd)
    (by decide)

example :
    (get_execution_order ["B", "A", "C"]
      { DB.empty with
          workflows := [⟨1, "wf3", "w"⟩],
          steps := [⟨1, "A", "", 1⟩, ⟨2, "B", "", 1⟩, ⟨3, "C", "", 1⟩] }
      "wf3").2 = .ok (.order ["B", "A", "C"]) := by decide

example :
    (get_execution_order ["A", "B"]
      { DB.empty with
          workflows := [⟨1, "wf2", "w"⟩],
          steps := [⟨1, "A", "", 1⟩, ⟨2, "B", "", 1⟩],
          dependencies := [⟨1, 1, "A", "B"⟩, ⟨2, 1, "B", "A"⟩] }
      "wf2").2 = .ok .cycleDetected := by decide

example :
    (get_execution_order ["C", "A", "B"]
      { DB.empty with
          workflows := [⟨1, "wf1", "w"⟩],
          steps := [⟨1, "A", "", 1⟩, ⟨2, "B", "", 1⟩, ⟨3, "C", "", 1⟩],
          dependencies := [⟨1, 1, "B", "A"⟩, ⟨2, 1, "C", "B"⟩] }
      "wf1").2 = .ok (.order ["A", "B", "C"]) := by decide
